import Mathlib

/-!
Verification of the invoice extraction and classification core
(`backend.py` / `classification.py`).

The Python code is shallowly embedded:

* Python `re` patterns are embedded as executable matchers over `List Char`.
  The repository's patterns only combine literals, character classes that are
  disjoint from their neighbouring tokens, and counted digit groups, so every
  `re.search` of the repository reduces to "at the leftmost position where a
  deterministic longest-run parse succeeds" — this is argued pattern by
  pattern in the comments next to each matcher.
* Python floats are modelled exactly as rationals (`ℚ`); both `round()` and
  the `"%.0f"` format round half to even on the exact value, embedded as
  `roundHalfEven`.
* `pdfplumber` text extraction may raise; it is modelled as an
  `Except String String` argument.  A caught exception carries its message.
* Python dicts are modelled as association lists (`List (String × Val)`)
  built in the source's insertion order; a missing key is `List.lookup = none`.
* The file system that `classification.py` manipulates is modelled as
  association lists from category names to file-name lists.
-/

/-- ASCII whitespace characters matched by `\s` (the texts handled by the
repository contain no exotic Unicode whitespace). -/
def isWs (c : Char) : Bool :=
  c == ' ' || c == '\t' || c == '\n' || c == '\r' || c == '\x0b' || c == '\x0c'

/-- The CJK ideograph class `[一-龥]` used by the name patterns. -/
def ideoChar (c : Char) : Bool :=
  decide (0x4e00 ≤ c.toNat) && decide (c.toNat ≤ 0x9fa5)

/-- Drop the maximal `\s*` run. -/
def dropWs (cs : List Char) : List Char := cs.dropWhile isWs

/-- Match a literal string (a sequence of literal pattern characters) at the
current position, returning the remainder. -/
def dropLit : List Char → List Char → Option (List Char)
  | [], cs => some cs
  | _ :: _, [] => none
  | l :: ls, c :: cs => if c = l then dropLit ls cs else none

/-- Match one literal character at the current position. -/
def litChar (c : Char) : List Char → Option (List Char)
  | [] => none
  | x :: r => if x = c then some r else none

/-- A counted digit group such as `(\d{4})` or `(\d{1,2})` that is followed in
the pattern by a token which can match neither a digit nor more digits: the
regex then matches iff the maximal digit run at this position has an accepted
length, and the whole run is the captured group. -/
def numRun (lenOk : Nat → Bool) (cs : List Char) : Option (List Char × List Char) :=
  if lenOk (cs.takeWhile Char.isDigit).length then
    some (cs.takeWhile Char.isDigit, cs.dropWhile Char.isDigit)
  else none

/-- `\s+` followed by a non-whitespace token: at least one whitespace
character, then the maximal run is consumed. -/
def dropWs1 (cs : List Char) : Option (List Char) :=
  match cs with
  | [] => none
  | c :: rest => if isWs c then some (dropWs rest) else none

/-- `(\d+\.\d{2})`: `\d+` is followed by `\.` in the pattern, so the maximal
digit run must be non-empty and immediately followed by `'.'` and two digits.
Returns the captured group text and the remainder after the two decimals. -/
def parseNum2 (cs : List Char) : Option (String × List Char) :=
  match cs.dropWhile Char.isDigit with
  | '.' :: c1 :: c2 :: r =>
    if (cs.takeWhile Char.isDigit) ≠ [] ∧ c1.isDigit ∧ c2.isDigit then
      some (String.mk ((cs.takeWhile Char.isDigit) ++ ['.', c1, c2]), r)
    else none
  | _ => none

/-- `re.search` semantics: try the matcher at every position, leftmost first
(all the repository's patterns need at least one character, so the final
empty position matters only formally). -/
def searchWith (f : List Char → Option α) : List Char → Option α
  | [] => f []
  | c :: cs =>
    match f (c :: cs) with
    | some r => some r
    | none => searchWith f cs

/-- First pattern of an ordered pattern list whose search succeeds. -/
def searchFirst (ps : List (List Char → Option α)) (cs : List Char) : Option α :=
  match ps with
  | [] => none
  | p :: rest =>
    match searchWith p cs with
    | some g => some g
    | none => searchFirst rest cs

/-! ### Field patterns of `InvoiceExtractor` -/

/-- `发票代码\s*[:：]\s*(\d+)` and `发票号码\s*[:：]\s*(\d+)`, matched at one
position: the literal label, optional whitespace, an ASCII or fullwidth
colon, optional whitespace, then a non-empty maximal digit run (`(\d+)` ends
the pattern, so the maximal run is the captured group). -/
def labelDigitsAt (label : List Char) (cs : List Char) : Option String :=
  match dropLit label cs with
  | none => none
  | some r1 =>
    match dropWs r1 with
    | [] => none
    | c :: r2 =>
      if c = ':' ∨ c = '：' then
        if (dropWs r2).takeWhile Char.isDigit = [] then none
        else some (String.mk ((dropWs r2).takeWhile Char.isDigit))
      else none

def fapiaoCode : List Char := String.data "发票代码"

def fapiaoNum : List Char := String.data "发票号码"

/-- Shared head of both date patterns: `开票日期\s*[:：]\s*`. -/
def dateHead (cs : List Char) : Option (List Char) :=
  match dropLit (String.data "开票日期") cs with
  | none => none
  | some r1 =>
    match dropWs r1 with
    | [] => none
    | c :: r2 => if c = ':' ∨ c = '：' then some (dropWs r2) else none

/-- Tail of `(\d{4})\s*年\s*(\d{1,2})\s*月\s*(\d{1,2})\s*日` (the "spaced"
variant).  Each `(\d{k..})` is followed by `\s*` and a non-digit literal, so
it matches iff the maximal digit run has the counted length. -/
def dateTail1 (cs : List Char) : Option (String × String × String) :=
  match numRun (· == 4) cs with
  | none => none
  | some (y, r1) =>
    match litChar '年' (dropWs r1) with
    | none => none
    | some r2 =>
      match numRun (fun n => n == 1 || n == 2) (dropWs r2) with
      | none => none
      | some (m, r3) =>
        match litChar '月' (dropWs r3) with
        | none => none
        | some r4 =>
          match numRun (fun n => n == 1 || n == 2) (dropWs r4) with
          | none => none
          | some (d, r5) =>
            match litChar '日' (dropWs r5) with
            | none => none
            | some _ => some (String.mk y, String.mk m, String.mk d)

/-- Tail of `(\d{4})年(\d{1,2})月(\d{1,2})日` (the "compact" variant). -/
def dateTail2 (cs : List Char) : Option (String × String × String) :=
  match numRun (· == 4) cs with
  | none => none
  | some (y, r1) =>
    match litChar '年' r1 with
    | none => none
    | some r2 =>
      match numRun (fun n => n == 1 || n == 2) r2 with
      | none => none
      | some (m, r3) =>
        match litChar '月' r3 with
        | none => none
        | some r4 =>
          match numRun (fun n => n == 1 || n == 2) r4 with
          | none => none
          | some (d, r5) =>
            match litChar '日' r5 with
            | none => none
            | some _ => some (String.mk y, String.mk m, String.mk d)

def date1MatchAt (cs : List Char) : Option (String × String × String) :=
  match dateHead cs with
  | none => none
  | some r => dateTail1 r

def date2MatchAt (cs : List Char) : Option (String × String × String) :=
  match dateHead cs with
  | none => none
  | some r => dateTail2 r

/-- `self.date_patterns`, in declared order: spaced variant first. -/
def date_patterns : List (List Char → Option (String × String × String)) :=
  [date1MatchAt, date2MatchAt]

/-- `(\d+\.\d{2})\s+(\d+)%\s+(\d+\.\d{2})` at one position (the table-row
amount pattern). -/
def tableMatchAt (cs : List Char) : Option (String × String × String) :=
  match parseNum2 cs with
  | none => none
  | some (a, r1) =>
    match dropWs1 r1 with
    | none => none
    | some r2 =>
      match r2.dropWhile Char.isDigit with
      | '%' :: r3 =>
        if r2.takeWhile Char.isDigit = [] then none
        else
          match dropWs1 r3 with
          | none => none
          | some r4 =>
            match parseNum2 r4 with
            | none => none
            | some (t, _) => some (a, String.mk (r2.takeWhile Char.isDigit), t)
      | _ => none

/-- `re.findall(r'[￥¥]\s*(\d+\.\d{2})', text)`: the matches, left to
right.  After a successful match the engine continues after the consumed
text, but the consumed tail (whitespace, digits, a dot) contains no currency
symbol, so no later match can start strictly inside a previous span and
advancing one position at a time finds exactly the same matches. -/
def yuanFindall : List Char → List String
  | [] => []
  | c :: rest =>
    if c = '￥' ∨ c = '¥' then
      match parseNum2 (dropWs rest) with
      | some (s, _) => s :: yuanFindall rest
      | none => yuanFindall rest
    else yuanFindall rest

/-! ### Name patterns of `InvoiceExtractor` -/

/-- `([一-龥]{2,4})` followed in the pattern by `\.`: `'.'` is not an
ideograph, so the maximal ideograph run must have length 2–4 and is the
captured group. -/
def ideoRun24 (cs : List Char) : Option (List Char × List Char) :=
  if 2 ≤ (cs.takeWhile ideoChar).length ∧ (cs.takeWhile ideoChar).length ≤ 4 then
    some (cs.takeWhile ideoChar, cs.dropWhile ideoChar)
  else none

/-- `\.pdf$`: the anchor is modelled as end of string (file names contain no
trailing newline). -/
def pdfEnd (cs : List Char) : Bool :=
  cs = ['.', 'p', 'd', 'f']

/-- `([一-龥]{2,4})\.pdf$` at one position (the generic name pattern). -/
def directMatchAt (cs : List Char) : Option (List Char) :=
  match ideoRun24 cs with
  | none => none
  | some (run, rest) => if pdfEnd rest then some run else none

/-- `滴滴电子发票\d+[_-]\d+[_-]([一-龥]{2,4})\.pdf$` at one position: each
`\d+` is followed by `[_-]`, which cannot match a digit, so the maximal
non-empty digit run is consumed. -/
def didiMatchAt (cs : List Char) : Option (List Char) :=
  match dropLit (String.data "滴滴电子发票") cs with
  | none => none
  | some r1 =>
    match numRun (fun n => n != 0) r1 with
    | none => none
    | some (_, r2) =>
      match r2 with
      | [] => none
      | sep1 :: r3 =>
        if sep1 = '_' ∨ sep1 = '-' then
          match numRun (fun n => n != 0) r3 with
          | none => none
          | some (_, r4) =>
            match r4 with
            | [] => none
            | sep2 :: r5 =>
              if sep2 = '_' ∨ sep2 = '-' then directMatchAt r5 else none
        else none

/-- `self.name_patterns`, in declared order: the Didi pattern first. -/
def name_patterns : List (List Char → Option (List Char)) :=
  [didiMatchAt, directMatchAt]

/-- The loop body of `extract_person_name`: `re.search` each pattern in
order; a match whose captured group has length in `[2,4]` is returned,
otherwise the next pattern is tried. -/
def nameLoop : List (List Char → Option (List Char)) → List Char → Option (List Char)
  | [], _ => none
  | p :: ps, cs =>
    match searchWith p cs with
    | some n => if 2 ≤ n.length ∧ n.length ≤ 4 then some n else nameLoop ps cs
    | none => nameLoop ps cs

/-- `filename.replace('.pdf', '')`: remove every occurrence of `".pdf"`,
scanning left to right (Python `str.replace` replaces all occurrences, not
just a trailing extension). -/
def replacePdf : List Char → List Char
  | '.' :: 'p' :: 'd' :: 'f' :: rest => replacePdf rest
  | c :: rest => c :: replacePdf rest
  | [] => []

/-- Worker for `chineseRuns`, structurally recursive on a fuel bounded below
by the list length (each step consumes at least one character). -/
def chineseRunsGo : ℕ → List Char → List (List Char)
  | 0, _ => []
  | _, [] => []
  | fuel + 1, c :: cs =>
    if ideoChar c then
      if 2 ≤ (((c :: cs).takeWhile ideoChar).take 4).length then
        ((c :: cs).takeWhile ideoChar).take 4 ::
          chineseRunsGo fuel ((c :: cs).drop (((c :: cs).takeWhile ideoChar).take 4).length)
      else chineseRunsGo fuel cs
    else chineseRunsGo fuel cs

/-- `re.findall(r'[一-龥]{2,4}', s)`: at an ideograph, emit the first
`min(run, 4)` characters of the maximal run when at least 2 are available and
continue after them; otherwise advance one position. -/
def chineseRuns (l : List Char) : List (List Char) := chineseRunsGo l.length l

/-- Python `max(names, key=len)`: the first element of maximal length wins
(`max` only replaces the current best on a strictly greater key). -/
def pyMaxByLen (acc : List Char) : List (List Char) → List Char
  | [] => acc
  | y :: ys => pyMaxByLen (if acc.length < y.length then y else acc) ys

/-- `InvoiceExtractor.extract_person_name`. -/
def extract_person_name (filename : String) : String :=
  match nameLoop name_patterns filename.data with
  | some n => String.mk n
  | none =>
    match chineseRuns (replacePdf filename.data) with
    | [] => "未知"
    | n :: ns => String.mk (pyMaxByLen n ns)

/-- Modelled from the claim's words for the fallback of the name resolver:
"after stripping the extension, the longest run of 2–4 ideographic characters
anywhere in the remainder" — the extension is stripped once, from the end of
the file name.  Only the fallback differs from `extract_person_name`. -/
def resolveNameSpec (filename : String) : String :=
  match nameLoop name_patterns filename.data with
  | some n => String.mk n
  | none =>
    match chineseRuns
        (if ['.', 'p', 'd', 'f'].isSuffixOf filename.data then
          filename.data.take (filename.data.length - 4)
        else filename.data) with
    | [] => "未知"
    | n :: ns => String.mk (pyMaxByLen n ns)

/-! ### Values, derived fields and the extraction record -/

/-- A Python dict value of the extraction record: a string or a number
(Python floats are modelled exactly as rationals). -/
inductive Val where
  | str (s : String)
  | num (q : ℚ)
deriving DecidableEq

def digitsToNat (l : List Char) : ℕ := l.foldl (fun a c => 10 * a + (c.toNat - 48)) 0

/-- Exact value of `float(s)` for the captured `digits.digits` groups. -/
def ratVal (s : String) : ℚ :=
  (digitsToNat (s.data.takeWhile Char.isDigit) : ℚ) +
    (digitsToNat (match s.data.dropWhile Char.isDigit with
      | '.' :: rest => rest
      | _ => []) : ℚ) /
      (10 : ℚ) ^ (match s.data.dropWhile Char.isDigit with
        | '.' :: rest => rest
        | _ => []).length

/-- Round half to even, the rounding used both by Python `round()` and by the
`"%.0f"` float format on the exact value. -/
def roundHalfEven (q : ℚ) : ℤ :=
  if q - Rat.floor q < 1 / 2 then Rat.floor q
  else if 1 / 2 < q - Rat.floor q then Rat.floor q + 1
  else if Rat.floor q % 2 = 0 then Rat.floor q else Rat.floor q + 1

/-- `f"{tax_rate:.0f}%"`. -/
def fmtRate (q : ℚ) : String := toString (roundHalfEven q) ++ "%"

/-- `str.zfill(2)`. -/
def zfill2 (s : String) : String :=
  String.mk (List.replicate (2 - s.length) '0' ++ s.data)

/-- `os.path.basename` (POSIX): the part after the last `'/'`. -/
def basename (p : String) : String :=
  String.mk ((p.data.reverse.takeWhile (fun c => c != '/')).reverse)

/-- `InvoiceExtractor._extract_amounts`, strategy priority exactly as in the
source: table-row pattern first, else the first two currency-symbol matches,
else nothing. -/
def _extract_amounts (cs : List Char) : Option ℚ × Option ℚ :=
  match searchWith tableMatchAt cs with
  | some g => (some (ratVal g.1), some (ratVal g.2.2))
  | none =>
    match yuanFindall cs with
    | a :: b :: _ => (some (ratVal a), some (ratVal b))
    | _ => (none, none)

/-- `result['发票代码']` / `result['发票号码']`: first match or empty string. -/
def codeFieldOf (label : List Char) (cs : List Char) : String :=
  match searchWith (labelDigitsAt label) cs with
  | some s => s
  | none => ""

/-- `result['开票日期']`: first date pattern that matches anywhere wins; the
groups are reformatted as `year/month.zfill(2)/day.zfill(2)`; empty string
when no pattern matches. -/
def dateFieldOf (cs : List Char) : String :=
  match searchFirst date_patterns cs with
  | some g => g.1 ++ "/" ++ zfill2 g.2.1 ++ "/" ++ zfill2 g.2.2
  | none => ""

/-- `result['金额']`: extracted amount with `0.0` substituted when absent
(Python `x if x else 0.0`; for `x = 0.0` both branches give `0.0`). -/
def amountOf (cs : List Char) : ℚ := ((_extract_amounts cs).1).getD 0

/-- `result['税额']`. -/
def taxOf (cs : List Char) : ℚ := ((_extract_amounts cs).2).getD 0

/-- `result['税率']`: `f"{(税额/金额)*100:.0f}%"` when the amount is positive,
else `"0%"`. -/
def rateOf (cs : List Char) : String :=
  if 0 < amountOf cs then fmtRate (taxOf cs / amountOf cs * 100) else "0%"

/-- `InvoiceExtractor.extract_invoice_info`.  The first-page text extraction
(`pdfplumber.open` / `extract_text`) is an `Except String String` argument;
`datetime.now().strftime(...)` is the `now` argument.  On any exception the
minimal failure record is returned; otherwise the record is built in the
source's key insertion order. -/
def extract_invoice_info (pdf_path : String) (pageText : Except String String)
    (now : String) : List (String × Val) :=
  match pageText with
  | Except.error e =>
    [("文件名", Val.str (basename pdf_path)),
     ("提取时间", Val.str now),
     ("状态", Val.str ("失败: " ++ e))]
  | Except.ok text =>
    [("发票代码", Val.str (codeFieldOf fapiaoCode text.data)),
     ("发票号码", Val.str (codeFieldOf fapiaoNum text.data)),
     ("开票日期", Val.str (dateFieldOf text.data)),
     ("金额", Val.num (amountOf text.data)),
     ("税额", Val.num (taxOf text.data)),
     ("价税合计", Val.num (amountOf text.data + taxOf text.data)),
     ("税率", Val.str (rateOf text.data)),
     ("文件名", Val.str (basename pdf_path)),
     ("提取时间", Val.str now),
     ("状态", Val.str "成功")]

/-! ### `classification.py` -/

/-- The ordered category→keyword table (`categories` in `classify_pdfs`);
Python dicts preserve insertion order, so iteration follows this order. -/
def categories : List (String × List String) :=
  [("地铁发票", ["地铁", "城市轨道", "轨道交通", "城市轨道交通服务", "地铁集团", "三号线"]),
   ("高铁发票", ["铁路", "无座", "硬座", "二等座", "高铁", "动车", "火车票"]),
   ("滴滴打车发票", ["客运服务", "客运服务费", "滴滴", "快车", "专车", "出租车"]),
   ("顺丰发票", ["收派服务", "收派服务费", "快递服务", "收派", "物流", "顺丰"]),
   ("通行费电子发票", ["通行费", "经营租赁", "高速公路", "ETC", "停车费"]),
   ("餐饮发票", ["餐饮", "饭店", "餐厅", "食品", "外卖"]),
   ("住宿发票", ["住宿", "酒店", "宾馆", "旅馆"]),
   ("办公用品发票", ["办公用品", "文具", "打印", "复印", "纸张"]),
   ("其他发票", [])]

/-- Python `str.lower()` (ASCII case mapping; the configured keywords are
Chinese plus the ASCII `"ETC"`). -/
def strLower (s : String) : String := String.mk (s.data.map Char.toLower)

/-- Substring test (Python `needle in hay`). -/
def hasInfix (needle : List Char) : List Char → Bool
  | [] => needle.isEmpty
  | c :: t => needle.isPrefixOf (c :: t) || hasInfix needle t

/-- `contains_any(text, keywords)`: `any(keyword.lower() in text ...)`. -/
def contains_any (text : String) (keywords : List String) : Bool :=
  keywords.any (fun k => hasInfix (strLower k).data text.data)

/-- The classification loop of `classify_pdfs`: default category `其他发票`;
iterate the table in order, skip the catch-all entry, and break on the first
category one of whose keywords occurs in the content. -/
def classifyLoop (content : String) : List (String × List String) → String
  | [] => "其他发票"
  | ck :: rest =>
    if ck.1 = "其他发票" then classifyLoop content rest
    else if contains_any content ck.2 then ck.1 else classifyLoop content rest

/-- Category assigned to already-lowercased document content. -/
def classifyContent (content : String) : String := classifyLoop content categories

/-- What the spec describes: the first category in declared table order
(skipping the catch-all) at least one of whose keywords occurs in the
content, else the catch-all. -/
def firstKeywordCategory (content : String) : String :=
  match (categories.filter (fun ck => ck.1 ≠ "其他发票")).find?
      (fun ck => contains_any content ck.2) with
  | some ck => ck.1
  | none => "其他发票"

deriving instance DecidableEq for Except

/-- A file of the source folder: its name and the result of
`extract_text_from_pdf` on it (an unreadable PDF is an `error`). -/
structure SrcFile where
  name : String
  readRes : Except String String
deriving DecidableEq

/-- Result of phase 1: the staged-tree path, the per-category folders created
up front, the files moved into the staged tree (with their category), and the
files still at their original location afterwards. -/
structure StageResult where
  stagedPath : String
  createdDirs : List String
  moved : List (String × String)
  leftInPlace : List String
deriving DecidableEq

/-- Whether `classify_pdfs` processes this directory entry:
`filename.lower().endswith('.pdf')`. -/
def isPdfName (f : String) : Bool :=
  ['.', 'p', 'd', 'f'].isSuffixOf (strLower f).data

/-- `classify_pdfs(source_folder)`.  The staging root `temp_output` and one
folder per category are created before the file loop.  The loop iterates a
snapshot of the directory listing; a file whose text extraction raises is
caught, skipped and left in place; a readable `.pdf` is classified on its
lowercased full text and moved.  The staged path is returned regardless. -/
def classify_pdfs (source_folder : String) (files : List SrcFile) : StageResult :=
  { stagedPath := source_folder ++ "/temp_output"
    createdDirs := categories.map Prod.fst
    moved := files.filterMap (fun f =>
      if isPdfName f.name then
        match f.readRes with
        | Except.ok content => some (f.name, classifyContent (strLower content))
        | Except.error _ => none
      else none)
    leftInPlace := files.filterMap (fun f =>
      if isPdfName f.name then
        match f.readRes with
        | Except.ok _ => none
        | Except.error _ => some f.name
      else some f.name) }

/-- One per-file step of the merge: `shutil.move(src_file, dst_file)`.  On the
same file system this is a rename that silently replaces an existing
destination entry, so the destination's set of names gains `f` if absent and
is unchanged if present. -/
def mergeCategory (dst src : List String) : List String :=
  src.foldl (fun acc f => if f ∈ acc then acc else acc ++ [f]) dst

/-- Replace the value of the first entry with the given key. -/
def updateAssoc (l : List (String × List String)) (k : String) (v : List String) :
    List (String × List String) :=
  l.map (fun p => if p.1 = k then (k, v) else p)

/-- Merge of one staged category folder into the output tree: if the
destination category folder exists (`os.path.exists(dst)`), move the staged
files into it one by one, else move the whole staged folder
(`shutil.move(src, dst)`). -/
def mergeStep (out : List (String × List String)) (e : String × List String) :
    List (String × List String) :=
  match out.lookup e.1 with
  | some dst => updateAssoc out e.1 (mergeCategory dst e.2)
  | none => out ++ [e]

/-- `move_to_output(temp_output_folder)`: merge each staged category into the
persistent output tree.  Trees are association lists from category name to
the list of file names in that folder. -/
def move_to_output (temp output : List (String × List String)) :
    List (String × List String) :=
  temp.foldl mergeStep output

/-! ### Helper lemmas -/

theorem searchWith_some_exists {f : List Char → Option α} :
    ∀ {cs : List Char} {v : α}, searchWith f cs = some v → ∃ t, f t = some v := by
  intro cs
  induction cs with
  | nil => intro v h; exact ⟨[], by simpa [searchWith] using h⟩
  | cons c t ih =>
    intro v h
    unfold searchWith at h
    cases hf : f (c :: t) with
    | some r => rw [hf] at h; exact ⟨c :: t, hf.trans h⟩
    | none => rw [hf] at h; exact ih h

theorem labelDigitsAt_shape {L cs : List Char} {s : String}
    (h : labelDigitsAt L cs = some s) :
    s.data ≠ [] ∧ s.data.all Char.isDigit = true := by
  unfold labelDigitsAt at h
  split at h
  · exact absurd h (by simp)
  case _ r1 _ =>
    split at h
    · exact absurd h (by simp)
    case _ c r2 _ =>
      split at h
      · split at h
        · exact absurd h (by simp)
        case _ hne =>
          simp only [Option.some.injEq] at h
          subst h
          refine ⟨hne, ?_⟩
          rw [List.all_eq_true]
          intro a ha
          exact List.mem_takeWhile_imp ha
      · exact absurd h (by simp)

/-! ### C1 -/

/-- **C1.** For every document path, `extract_invoice_info` returns a record
and never raises: it is a total function of the (possibly failing) text
extraction; the returned mapping always carries the filename (basename of
the path), the extraction timestamp and a status; when text extraction fails
the status is the failure marker carrying the underlying error message; a
batch caller obtains exactly `N` records for `N` input paths. -/
theorem c1_never_raises :
    (∀ (path now : String) (rd : Except String String),
      (extract_invoice_info path rd now).lookup "文件名" = some (Val.str (basename path))
      ∧ (extract_invoice_info path rd now).lookup "提取时间" = some (Val.str now)
      ∧ ∃ s, (extract_invoice_info path rd now).lookup "状态" = some (Val.str s))
    ∧ (∀ (path now e : String),
      (extract_invoice_info path (Except.error e) now).lookup "状态"
        = some (Val.str ("失败: " ++ e)))
    ∧ (∀ (inputs : List (String × Except String String)) (now : String),
      (inputs.map (fun p => extract_invoice_info p.1 p.2 now)).length = inputs.length) := by
  refine ⟨?_, ?_, ?_⟩
  · intro path now rd
    cases rd with
    | error e => exact ⟨rfl, rfl, ⟨"失败: " ++ e, rfl⟩⟩
    | ok text => exact ⟨rfl, rfl, ⟨"成功", rfl⟩⟩
  · intro path now e; rfl
  · intro inputs now; exact List.length_map inputs _

/-! ### C2 -/

/-- **C2.** Every success record satisfies the derived-field invariants: the
gross total (`价税合计`) is exactly the sum of the amount (`金额`) and the tax
(`税额`) fields, and the tax rate (`税率`) is the half-even rounding of
`tax/amount*100` rendered as `"N%"` when the amount is positive, `"0%"`
otherwise.  Records built from an extraction error do not have success
status (so no success record escapes the invariant). -/
theorem c2_derived_fields :
    (∀ (path text now : String),
      (extract_invoice_info path (Except.ok text) now).lookup "金额"
        = some (Val.num (amountOf text.data))
      ∧ (extract_invoice_info path (Except.ok text) now).lookup "税额"
        = some (Val.num (taxOf text.data))
      ∧ (extract_invoice_info path (Except.ok text) now).lookup "价税合计"
        = some (Val.num (amountOf text.data + taxOf text.data))
      ∧ (extract_invoice_info path (Except.ok text) now).lookup "税率"
        = some (Val.str (if 0 < amountOf text.data then
            fmtRate (taxOf text.data / amountOf text.data * 100) else "0%"))
      ∧ (extract_invoice_info path (Except.ok text) now).lookup "状态"
        = some (Val.str "成功"))
    ∧ (∀ (path now e : String),
      (extract_invoice_info path (Except.error e) now).lookup "状态"
        ≠ some (Val.str "成功")) := by
  constructor
  · intro path text now
    exact ⟨rfl, rfl, rfl, rfl, rfl⟩
  · intro path now e h
    have h0 : (extract_invoice_info path (Except.error e) now).lookup "状态"
        = some (Val.str ("失败: " ++ e)) := rfl
    rw [h0] at h
    simp only [Option.some.injEq, Val.str.injEq] at h
    have h2 := congrArg String.data h
    simp at h2

/-! ### C3 -/

/-- **C3 counterexample.** The claim asserts that the mapping returned by
`extract_invoice_info` contains the `发票代码` and `发票号码` keys for every
document path, *including* the minimal record returned on total extraction
failure.  At a path whose text extraction raises, the returned failure record
does not contain either key. -/
theorem c3_counterexample :
    (extract_invoice_info "a.pdf" (Except.error "boom") "2024/01/01 00:00:00").lookup
        "发票代码" = none
    ∧ (extract_invoice_info "a.pdf" (Except.error "boom") "2024/01/01 00:00:00").lookup
        "发票号码" = none := by
  exact ⟨rfl, rfl⟩

/-- **C3 (amended).** On every successfully extracted record the mapping
contains the `发票代码` and `发票号码` keys, whose values are non-empty digit
strings when the corresponding label pattern matches and the empty string
otherwise; the minimal failure record contains only the filename, timestamp
and status keys, so the two keys are present only on success. -/
theorem c3_code_number_keys :
    (∀ (path text now : String),
      (extract_invoice_info path (Except.ok text) now).lookup "发票代码"
        = some (Val.str (codeFieldOf fapiaoCode text.data))
      ∧ (extract_invoice_info path (Except.ok text) now).lookup "发票号码"
        = some (Val.str (codeFieldOf fapiaoNum text.data))
      ∧ (∀ L s, searchWith (labelDigitsAt L) text.data = some s →
          codeFieldOf L text.data = s ∧ s.data ≠ [] ∧ s.data.all Char.isDigit = true)
      ∧ (∀ L, searchWith (labelDigitsAt L) text.data = none →
          codeFieldOf L text.data = ""))
    ∧ (∀ (path now e : String),
      (extract_invoice_info path (Except.error e) now).lookup "发票代码" = none
      ∧ (extract_invoice_info path (Except.error e) now).lookup "发票号码" = none
      ∧ (extract_invoice_info path (Except.error e) now).lookup "文件名"
        = some (Val.str (basename path))
      ∧ (extract_invoice_info path (Except.error e) now).lookup "提取时间"
        = some (Val.str now)
      ∧ (extract_invoice_info path (Except.error e) now).lookup "状态"
        = some (Val.str ("失败: " ++ e))) := by
  constructor
  · intro path text now
    refine ⟨rfl, rfl, ?_, ?_⟩
    · intro L s h
      obtain ⟨t, ht⟩ := searchWith_some_exists h
      exact ⟨by simp [codeFieldOf, h], labelDigitsAt_shape ht⟩
    · intro L h
      simp [codeFieldOf, h]
  · intro path now e
    exact ⟨rfl, rfl, rfl, rfl, rfl⟩

/-- Witness for `c3_code_number_keys` at a concrete matching text. -/
theorem c3_code_number_keys_witness :
    (extract_invoice_info "a.pdf" (Except.ok "发票代码：12345") "t").lookup "发票代码"
      = some (Val.str "12345")
    ∧ ("12345" : String).data ≠ []
    ∧ ("12345" : String).data.all Char.isDigit = true := by
  have h := (c3_code_number_keys.1 "a.pdf" "发票代码：12345" "t")
  have hs : searchWith (labelDigitsAt fapiaoCode) ("发票代码：12345" : String).data
      = some "12345" := by decide
  obtain ⟨hfield, hne, hdig⟩ := h.2.2.1 fapiaoCode "12345" hs
  exact ⟨h.1.trans (by rw [hfield]), hne, hdig⟩

/-! ### C4 -/

/-- **C4.** `_extract_amounts` applies its strategies in strict priority
order with no merging: a table-row match anywhere returns its first and third
numbers even when currency-symbol matches are present; otherwise two or more
currency-symbol matches return the first two; otherwise both results are
absent and `extract_invoice_info` substitutes `0.0` for each.  The concrete
conjuncts exercise the priority (both patterns present), the two-currency
strategy, and the defaulting. -/
theorem c4_amount_priority :
    (∀ text : String,
      _extract_amounts text.data =
        match searchWith tableMatchAt text.data with
        | some g => (some (ratVal g.1), some (ratVal g.2.2))
        | none =>
          match yuanFindall text.data with
          | a :: b :: _ => (some (ratVal a), some (ratVal b))
          | _ => (none, none))
    ∧ (∀ (path text now : String),
      (extract_invoice_info path (Except.ok text) now).lookup "金额"
        = some (Val.num (((_extract_amounts text.data).1).getD 0))
      ∧ (extract_invoice_info path (Except.ok text) now).lookup "税额"
        = some (Val.num (((_extract_amounts text.data).2).getD 0)))
    ∧ searchWith tableMatchAt (String.data "1.00 5% 0.05 ￥9.99 ￥8.88")
        = some ("1.00", "5", "0.05")
    ∧ _extract_amounts (String.data "1.00 5% 0.05 ￥9.99 ￥8.88")
        = (some (ratVal "1.00"), some (ratVal "0.05"))
    ∧ (yuanFindall (String.data "1.00 5% 0.05 ￥9.99 ￥8.88")).length = 2
    ∧ _extract_amounts (String.data "￥9.99 ¥8.88")
        = (some (ratVal "9.99"), some (ratVal "8.88"))
    ∧ _extract_amounts (String.data "￥9.99 金额") = (none, none)
    ∧ (extract_invoice_info "p" (Except.ok "￥9.99 金额") "t").lookup "金额"
        = some (Val.num 0)
    ∧ (extract_invoice_info "p" (Except.ok "￥9.99 金额") "t").lookup "税额"
        = some (Val.num 0) := by
  refine ⟨?_, ?_, by decide, by rfl, by decide, by rfl, by rfl, by rfl, by rfl⟩
  · intro text
    unfold _extract_amounts
    rfl
  · intro path text now
    exact ⟨rfl, rfl⟩

/-! ### C7 -/

/-- **C7 counterexample.** The claim describes the fallback as acting on the
file name "after stripping the extension".  The code instead removes *every*
occurrence of `".pdf"` (`filename.replace('.pdf', '')`), which can join two
ideograph runs that are separate in the extension-stripped name: on
`"一.pdf二X.pdf"` the code returns `"一二"` while the claimed description
returns the unknown sentinel. -/
theorem c7_counterexample :
    resolveNameSpec "一.pdf二X.pdf" = "未知"
    ∧ extract_person_name "一.pdf二X.pdf" = "一二"
    ∧ extract_person_name "一.pdf二X.pdf" ≠ resolveNameSpec "一.pdf二X.pdf" := by
  refine ⟨by decide, by decide, by decide⟩

/-- Modelled from the claim as amended: identical to the claim's description
of `extract_person_name` except that the fallback removes every occurrence of
the substring `".pdf"` from the file name (instead of stripping the
extension) before collecting ideograph runs. -/
def resolveNameAmended (filename : String) : String :=
  match nameLoop name_patterns filename.data with
  | some n => String.mk n
  | none =>
    match chineseRuns (replacePdf filename.data) with
    | [] => "未知"
    | n :: ns => String.mk (pyMaxByLen n ns)

/-- **C7 (amended).** `extract_person_name` is total and returns: the
captured group of the first filename pattern (Didi pattern, then generic
ideograph-run-before-`.pdf` pattern) whose captured group has length in
`[2,4]`; otherwise, after removing every occurrence of `".pdf"` from the
filename, the longest run of 2–4 ideographic characters anywhere in the
remainder, ties broken in favour of the first occurrence; otherwise the
sentinel `未知`.  The concrete conjuncts are the claim's three examples plus
a first-occurrence tie-break example. -/
theorem c7_name_resolution :
    (∀ filename : String, extract_person_name filename = resolveNameAmended filename)
    ∧ extract_person_name "滴滴电子发票123_456_张三.pdf" = "张三"
    ∧ extract_person_name "王小明.pdf" = "王小明"
    ∧ extract_person_name "invoice123.pdf" = "未知"
    ∧ extract_person_name "一二X三四.doc" = "一二" := by
  exact ⟨fun filename => rfl, by decide, by decide, by decide, by decide⟩

/-! ### C5 -/

theorem classifyLoop_eq_firstHit (content : String) :
    ∀ L : List (String × List String),
      classifyLoop content L =
        match (L.filter (fun ck => ck.1 ≠ "其他发票")).find?
            (fun ck => contains_any content ck.2) with
        | some ck => ck.1
        | none => "其他发票" := by
  intro L
  induction L with
  | nil => rfl
  | cons ck rest ih =>
    by_cases h : ck.1 = "其他发票"
    · simpa [classifyLoop, h, List.filter_cons] using ih
    · by_cases h2 : contains_any content ck.2
      · simp [classifyLoop, h, h2, List.filter_cons, List.find?_cons]
      · simpa [classifyLoop, h, h2, List.filter_cons, List.find?_cons] using ih

/-- **C5.** Classification is total and assigns the first category in
declared table order (skipping the catch-all) one of whose keywords occurs
case-insensitively in the text, defaulting to the catch-all `其他发票` when no
keyword occurs.  Concretely, a text containing both `地铁` (a `地铁发票`
keyword) and `铁路` (a `高铁发票` keyword) is assigned `地铁发票` because its
category comes first in table order, while a text with only `高铁发票`
keywords gets `高铁发票` and a text with no keywords gets `其他发票`. -/
theorem c5_classifier_first_hit :
    (∀ docText : String,
      classifyContent (strLower docText) = firstKeywordCategory (strLower docText))
    ∧ contains_any (strLower "本次乘坐地铁以及铁路出行")
        ["地铁", "城市轨道", "轨道交通", "城市轨道交通服务", "地铁集团", "三号线"] = true
    ∧ contains_any (strLower "本次乘坐地铁以及铁路出行")
        ["铁路", "无座", "硬座", "二等座", "高铁", "动车", "火车票"] = true
    ∧ classifyContent (strLower "本次乘坐地铁以及铁路出行") = "地铁发票"
    ∧ classifyContent (strLower "去坐高铁") = "高铁发票"
    ∧ classifyContent (strLower "hello 2024") = "其他发票" := by
  refine ⟨?_, by decide, by decide, by decide, by decide, by decide⟩
  intro docText
  exact classifyLoop_eq_firstHit (strLower docText) categories

/-! ### C8 -/

/-- **C8.** Phase 1 creates the staging root as the `temp_output` subfolder
of the source folder with one subfolder per category including the
catch-all, independently of the files processed; a failure while reading any
single `.pdf` is caught, the file stays at its original location and is not
moved, processing of the other files is unaffected, and the staged-tree path
is returned even when zero files were moved. -/
theorem c8_staging :
    ∀ (src : String) (files : List SrcFile),
      (classify_pdfs src files).stagedPath = src ++ "/temp_output"
      ∧ (classify_pdfs src files).createdDirs =
          ["地铁发票", "高铁发票", "滴滴打车发票", "顺丰发票", "通行费电子发票",
           "餐饮发票", "住宿发票", "办公用品发票", "其他发票"]
      ∧ "其他发票" ∈ (classify_pdfs src files).createdDirs
      ∧ (∀ f ∈ files, ∀ e, f.readRes = Except.error e → isPdfName f.name = true →
          f.name ∈ (classify_pdfs src files).leftInPlace)
      ∧ ((files.map SrcFile.name).Nodup → ∀ f ∈ files, ∀ e, f.readRes = Except.error e →
          f.name ∉ ((classify_pdfs src files).moved).map Prod.fst)
      ∧ (∀ f ∈ files, ∀ c, f.readRes = Except.ok c → isPdfName f.name = true →
          (f.name, classifyContent (strLower c)) ∈ (classify_pdfs src files).moved) := by
  intro src files
  refine ⟨rfl, rfl, by show "其他发票" ∈ categories.map Prod.fst; decide, ?_, ?_, ?_⟩
  · intro f hf e herr hpdf
    simp only [classify_pdfs, List.mem_filterMap]
    exact ⟨f, hf, by simp [hpdf, herr]⟩
  · intro hnd f hf e herr hmem
    simp only [classify_pdfs, List.map_filterMap, List.mem_filterMap] at hmem
    obtain ⟨g, hg, hval⟩ := hmem
    by_cases hp : isPdfName g.name
    · simp only [hp, if_true] at hval
      cases hrg : g.readRes with
      | error e2 => rw [hrg] at hval; simp at hval
      | ok c =>
        rw [hrg] at hval
        simp at hval
        have hname : g.name = f.name := hval
        have : f = g := List.inj_on_of_nodup_map hnd hf hg (by rw [hname])
        rw [this, hrg] at herr
        exact absurd herr (by simp)
    · simp [hp] at hval
  · intro f hf c hok hpdf
    simp only [classify_pdfs, List.mem_filterMap]
    exact ⟨f, hf, by simp [hpdf, hok]⟩

/-- Witness for `c8_staging` on a concrete folder with one unreadable and
one readable PDF. -/
theorem c8_staging_witness :
    "a.pdf" ∈ (classify_pdfs "/src"
        [⟨"a.pdf", Except.error "bad"⟩, ⟨"b.pdf", Except.ok "地铁"⟩]).leftInPlace
    ∧ "a.pdf" ∉ ((classify_pdfs "/src"
        [⟨"a.pdf", Except.error "bad"⟩, ⟨"b.pdf", Except.ok "地铁"⟩]).moved).map Prod.fst
    ∧ ("b.pdf", classifyContent (strLower "地铁")) ∈ (classify_pdfs "/src"
        [⟨"a.pdf", Except.error "bad"⟩, ⟨"b.pdf", Except.ok "地铁"⟩]).moved
    ∧ (classify_pdfs "/src"
        [⟨"a.pdf", Except.error "bad"⟩, ⟨"b.pdf", Except.ok "地铁"⟩]).stagedPath
      = "/src/temp_output" := by
  have h := c8_staging "/src" [⟨"a.pdf", Except.error "bad"⟩, ⟨"b.pdf", Except.ok "地铁"⟩]
  refine ⟨?_, ?_, ?_, h.1⟩
  · exact h.2.2.2.1 ⟨"a.pdf", Except.error "bad"⟩ (by decide) "bad" rfl (by decide)
  · exact h.2.2.2.2.1 (by decide) ⟨"a.pdf", Except.error "bad"⟩ (by decide) "bad" rfl
  · exact h.2.2.2.2.2 ⟨"b.pdf", Except.ok "地铁"⟩ (by decide) "地铁" rfl (by decide)

/-! ### C6 -/

theorem mem_mergeCategory_left {x : String} :
    ∀ {src dst : List String}, x ∈ dst → x ∈ mergeCategory dst src := by
  intro src
  induction src with
  | nil => intro dst h; exact h
  | cons f src ih =>
    intro dst h
    unfold mergeCategory
    rw [List.foldl_cons]
    refine ih ?_
    split
    · exact h
    · exact List.mem_append_left _ h

theorem nodup_mergeCategory :
    ∀ {src dst : List String}, dst.Nodup → (mergeCategory dst src).Nodup := by
  intro src
  induction src with
  | nil => intro dst h; exact h
  | cons f src ih =>
    intro dst h
    unfold mergeCategory
    rw [List.foldl_cons]
    refine ih ?_
    split
    · exact h
    · next hne => simp [List.nodup_append, h, hne]

theorem lookup_updateAssoc_self {l : List (String × List String)} {k : String}
    {v0 v : List String} (h : l.lookup k = some v0) :
    (updateAssoc l k v).lookup k = some v := by
  induction l with
  | nil => simp [List.lookup] at h
  | cons p l ih =>
    obtain ⟨pk, pv⟩ := p
    by_cases hk : pk = k
    · simp only [updateAssoc, List.map_cons, if_pos hk]
      simp [List.lookup]
    · have hne : (k == pk) = false := by
        simp only [beq_eq_false_iff_ne, ne_eq]
        exact fun e => hk e.symm
      simp only [List.lookup, hne] at h
      simp only [updateAssoc, List.map_cons, if_neg hk]
      simp only [List.lookup, hne]
      exact ih h

theorem lookup_updateAssoc_ne {l : List (String × List String)} {k k' : String}
    {v : List String} (h : k' ≠ k) :
    (updateAssoc l k v).lookup k' = l.lookup k' := by
  induction l with
  | nil => rfl
  | cons p l ih =>
    obtain ⟨pk, pv⟩ := p
    by_cases hk : pk = k
    · subst hk
      have hne : (k' == pk) = false := by simpa using h
      simp only [updateAssoc, List.map_cons, if_pos rfl]
      simp only [List.lookup, hne]
      exact ih
    · simp only [updateAssoc, List.map_cons, if_neg hk]
      simp only [List.lookup]
      cases hpk : (k' == pk) with
      | true => rfl
      | false => exact ih

theorem lookup_append_left {l1 l2 : List (String × List String)} {k : String}
    {v : List String} (h : l1.lookup k = some v) : (l1 ++ l2).lookup k = some v := by
  induction l1 with
  | nil => simp [List.lookup] at h
  | cons p l ih =>
    obtain ⟨pk, pv⟩ := p
    rw [List.cons_append]
    simp only [List.lookup] at h ⊢
    cases hpk : (k == pk) with
    | true => rw [hpk] at h; exact h
    | false => rw [hpk] at h; exact ih h

theorem lookup_mem_of_some {l : List (String × List String)} {k : String}
    {v : List String} (h : l.lookup k = some v) : (k, v) ∈ l := by
  induction l with
  | nil => simp [List.lookup] at h
  | cons p l ih =>
    obtain ⟨pk, pv⟩ := p
    simp only [List.lookup] at h
    cases hpk : (k == pk) with
    | true =>
      rw [hpk] at h
      simp only [Option.some.injEq] at h
      have hk : k = pk := by simpa using hpk
      subst h; rw [hk]
      exact List.mem_cons_self _ _
    | false =>
      rw [hpk] at h
      exact List.mem_cons_of_mem _ (ih h)

theorem mergeStep_pres {out : List (String × List String)} {e : String × List String}
    {cat f} (h : f ∈ (out.lookup cat).getD []) :
    f ∈ ((mergeStep out e).lookup cat).getD [] := by
  unfold mergeStep
  cases hd : out.lookup e.1 with
  | some dst =>
    by_cases hc : cat = e.1
    · subst hc
      rw [hd] at h
      rw [lookup_updateAssoc_self hd]
      exact mem_mergeCategory_left h
    · rw [lookup_updateAssoc_ne hc]
      exact h
  | none =>
    cases hout : out.lookup cat with
    | none => rw [hout] at h; simp at h
    | some v =>
      rw [hout] at h
      rw [lookup_append_left hout]
      exact h

theorem mergeStep_entries_nodup {out : List (String × List String)}
    {e : String × List String} (hout : ∀ p ∈ out, p.2.Nodup) (he : e.2.Nodup) :
    ∀ p ∈ mergeStep out e, p.2.Nodup := by
  unfold mergeStep
  cases hd : out.lookup e.1 with
  | some dst =>
    intro p hp
    simp only [updateAssoc, List.mem_map] at hp
    obtain ⟨q, hq, hpq⟩ := hp
    by_cases hk : q.1 = e.1
    · rw [if_pos hk] at hpq
      subst hpq
      exact nodup_mergeCategory (hout _ (lookup_mem_of_some hd))
    · rw [if_neg hk] at hpq
      subst hpq
      exact hout _ hq
  | none =>
    intro p hp
    rcases List.mem_append.mp hp with h | h
    · exact hout _ h
    · simp only [List.mem_singleton] at h
      subst h
      exact he

/-- **C6.** The merge phase never loses and never duplicates a file already
present in the output tree under the same category and file name: every file
name present in a destination category folder before the merge is still
present afterwards, and — directory listings being duplicate-free — no file
name occurs more than once under its category after the merge. -/
theorem c6_merge_preserves :
    ∀ (temp output : List (String × List String)),
      (∀ e ∈ temp, e.2.Nodup) →
      (∀ e ∈ output, e.2.Nodup) →
      ∀ cat : String,
        (∀ f, f ∈ ((output.lookup cat).getD []) →
          f ∈ (((move_to_output temp output).lookup cat).getD []))
        ∧ (((move_to_output temp output).lookup cat).getD []).Nodup := by
  intro temp
  induction temp with
  | nil =>
    intro output htemp hout cat
    simp only [move_to_output, List.foldl_nil]
    refine ⟨fun f hf => hf, ?_⟩
    cases hl : output.lookup cat with
    | none => simp
    | some v => simpa using hout _ (lookup_mem_of_some hl)
  | cons e temp ih =>
    intro output htemp hout cat
    have hstep : move_to_output (e :: temp) output = move_to_output temp (mergeStep output e) := by
      simp [move_to_output]
    rw [hstep]
    have hout2 : ∀ p ∈ mergeStep output e, p.2.Nodup :=
      mergeStep_entries_nodup hout (htemp e (List.mem_cons_self _ _))
    have htemp2 : ∀ p ∈ temp, p.2.Nodup := fun p hp => htemp p (List.mem_cons_of_mem _ hp)
    obtain ⟨hpres, hnd⟩ := ih (mergeStep output e) htemp2 hout2 cat
    exact ⟨fun f hf => hpres f (mergeStep_pres hf), hnd⟩

/-- Witness for `c6_merge_preserves` on a concrete staged tree and a
concrete pre-existing output tree sharing a category. -/
theorem c6_merge_preserves_witness :
    "y.pdf" ∈ (((move_to_output [("餐饮发票", ["x.pdf"])] [("餐饮发票", ["y.pdf"])]).lookup
        "餐饮发票").getD [])
    ∧ (((move_to_output [("餐饮发票", ["x.pdf"])] [("餐饮发票", ["y.pdf"])]).lookup
        "餐饮发票").getD []).Nodup := by
  have h := c6_merge_preserves [("餐饮发票", ["x.pdf"])] [("餐饮发票", ["y.pdf"])]
    (by decide) (by decide) "餐饮发票"
  exact ⟨h.1 "y.pdf" (by decide), h.2⟩

/-! ### C10 -/

theorem ws_not_digit {c : Char} (h : isWs c = true) : c.isDigit = false := by
  simp only [isWs, Bool.or_eq_true, beq_iff_eq] at h
  rcases h with ((((h | h) | h) | h) | h) | h <;> subst h <;> rfl

theorem digit_not_ws {c : Char} (h : c.isDigit = true) : isWs c = false := by
  cases hw : isWs c
  · rfl
  · rw [ws_not_digit hw] at h; exact absurd h (by simp)

theorem dropWs_cons_of {c : Char} {t : List Char} (h : isWs c = false) :
    dropWs (c :: t) = c :: t := by
  simp [dropWs, List.dropWhile_cons, h]

theorem numRun_dropWs {lenOk : Nat → Bool} {cs : List Char}
    {p : List Char × List Char} (h : numRun lenOk cs = some p)
    (h0 : lenOk 0 = false) : dropWs cs = cs := by
  cases cs with
  | nil => simp [numRun, h0] at h
  | cons c t =>
    cases hc : c.isDigit with
    | false =>
      unfold numRun at h
      rw [List.takeWhile_cons, hc] at h
      simp [h0] at h
    | true => exact dropWs_cons_of (digit_not_ws hc)

theorem litChar_eq {c : Char} {cs r : List Char} (h : litChar c cs = some r) :
    cs = c :: r := by
  cases cs with
  | nil => simp [litChar] at h
  | cons x t =>
    simp only [litChar] at h
    split at h
    · next hx =>
      simp only [Option.some.injEq] at h
      rw [hx, h]
    · simp at h

theorem dateTail2_imp_dateTail1 {cs : List Char} {g : String × String × String}
    (h : dateTail2 cs = some g) : dateTail1 cs = some g := by
  unfold dateTail2 at h
  split at h
  · simp at h
  next y r1 heq1 =>
    split at h
    · simp at h
    next r2 heq2 =>
      split at h
      · simp at h
      next m r3 heq3 =>
        split at h
        · simp at h
        next r4 heq4 =>
          split at h
          · simp at h
          next d r5 heq5 =>
            split at h
            · simp at h
            next r6 heq6 =>
              have hd1 : dropWs r1 = r1 := by
                rw [litChar_eq heq2]; exact dropWs_cons_of (by decide)
              have hd2 : dropWs r2 = r2 := numRun_dropWs heq3 rfl
              have hd3 : dropWs r3 = r3 := by
                rw [litChar_eq heq4]; exact dropWs_cons_of (by decide)
              have hd4 : dropWs r4 = r4 := numRun_dropWs heq5 rfl
              have hd5 : dropWs r5 = r5 := by
                rw [litChar_eq heq6]; exact dropWs_cons_of (by decide)
              unfold dateTail1
              simp only [heq1, hd1, heq2, hd2, heq3, hd3, heq4, hd4, heq5, hd5, heq6]
              exact h

theorem date2_imp_date1 {cs : List Char} {g : String × String × String}
    (h : date2MatchAt cs = some g) : date1MatchAt cs = some g := by
  unfold date2MatchAt at h
  split at h
  · simp at h
  next r heq =>
    unfold date1MatchAt
    simp only [heq]
    exact dateTail2_imp_dateTail1 h

theorem searchWith_none_mono {f g : List Char → Option α}
    (hpt : ∀ t v, g t = some v → f t = some v) :
    ∀ {cs : List Char}, searchWith f cs = none → searchWith g cs = none := by
  intro cs
  induction cs with
  | nil =>
    intro h
    unfold searchWith at h ⊢
    cases hg : g [] with
    | none => rfl
    | some v => rw [hpt [] v hg] at h; exact absurd h (by simp)
  | cons c t ih =>
    intro h
    unfold searchWith at h ⊢
    cases hf : f (c :: t) with
    | some v => rw [hf] at h; simp at h
    | none =>
      rw [hf] at h
      cases hg : g (c :: t) with
      | some v =>
        have hcontra := hpt _ _ hg
        rw [hf] at hcontra
        exact absurd hcontra (by simp)
      | none => exact ih h

/-- **C10.** The compact date pattern is subsumed by the spaced pattern:
every position matched by the compact variant is matched with the same
captured groups by the spaced variant (whose `\s*` separators also match
zero whitespace), so date extraction over the two-pattern list equals date
extraction over the list containing only the first pattern. -/
theorem c10_pattern_subsumption :
    ∀ cs : List Char, searchFirst date_patterns cs = searchFirst [date1MatchAt] cs := by
  intro cs
  cases h1 : searchWith date1MatchAt cs with
  | some g => simp [searchFirst, date_patterns, h1]
  | none =>
    have h2 : searchWith date2MatchAt cs = none :=
      searchWith_none_mono (fun t v hv => date2_imp_date1 hv) h1
    simp [searchFirst, date_patterns, h1, h2]

/-! ### C9 -/

theorem takeWhile_digits_split {l s : List Char} {c : Char} {t : List Char}
    (hl : ∀ x ∈ l, x.isDigit = true) (hs : ∀ x ∈ s, isWs x = true)
    (hc : c.isDigit = false) :
    (l ++ (s ++ c :: t)).takeWhile Char.isDigit = l
    ∧ (l ++ (s ++ c :: t)).dropWhile Char.isDigit = s ++ c :: t := by
  induction l with
  | nil =>
    simp only [List.nil_append]
    cases s with
    | nil => simp [List.takeWhile_cons, List.dropWhile_cons, hc]
    | cons x s2 =>
      have hx : isWs x = true := hs x (List.mem_cons_self _ _)
      have hxd : x.isDigit = false := ws_not_digit hx
      simp [List.takeWhile_cons, List.dropWhile_cons, hxd]
  | cons c2 l2 ih =>
    have hc2 : c2.isDigit = true := hl c2 (List.mem_cons_self _ _)
    have ih2 := ih (fun x hx => hl x (List.mem_cons_of_mem _ hx))
    simp [List.takeWhile_cons, List.dropWhile_cons, hc2, ih2.1, ih2.2]

theorem dropWs_append_ws {s t : List Char} (hs : ∀ x ∈ s, isWs x = true) :
    dropWs (s ++ t) = dropWs t := by
  induction s with
  | nil => simp
  | cons x s2 ih =>
    have hx : isWs x = true := hs x (List.mem_cons_self _ _)
    simp only [List.cons_append, dropWs, List.dropWhile_cons, hx, if_true]
    exact ih (fun a ha => hs a (List.mem_cons_of_mem _ ha))

theorem dropWs_digits_append {l t : List Char} (hl : ∀ x ∈ l, x.isDigit = true)
    (hne : l ≠ []) : dropWs (l ++ t) = l ++ t := by
  cases l with
  | nil => exact absurd rfl hne
  | cons c l2 => exact dropWs_cons_of (digit_not_ws (hl c (List.mem_cons_self _ _)))

theorem numRun_split {lenOk : Nat → Bool} {l s : List Char} {c : Char} {t : List Char}
    (hl : ∀ x ∈ l, x.isDigit = true) (hs : ∀ x ∈ s, isWs x = true)
    (hc : c.isDigit = false) (hlen : lenOk l.length = true) :
    numRun lenOk (l ++ (s ++ c :: t)) = some (l, s ++ c :: t) := by
  have h := takeWhile_digits_split (t := t) hl hs hc
  unfold numRun
  rw [h.1, h.2, hlen]
  simp

theorem litChar_self (c : Char) (r : List Char) : litChar c (c :: r) = some r := by
  simp [litChar]

/-- Symbolic run of the spaced date tail on a text of shape
`year ⟨ws⟩ 年 ⟨ws⟩ month ⟨ws⟩ 月 ⟨ws⟩ day ⟨ws⟩ 日`. -/
theorem dateTail1_full {y m d s2 s3 s4 s5 s6 : List Char}
    (hy : ∀ x ∈ y, x.isDigit = true) (hy4 : y.length = 4)
    (hm : ∀ x ∈ m, x.isDigit = true) (hm12 : m.length = 1 ∨ m.length = 2)
    (hd : ∀ x ∈ d, x.isDigit = true) (hd12 : d.length = 1 ∨ d.length = 2)
    (hs2 : ∀ x ∈ s2, isWs x = true) (hs3 : ∀ x ∈ s3, isWs x = true)
    (hs4 : ∀ x ∈ s4, isWs x = true) (hs5 : ∀ x ∈ s5, isWs x = true)
    (hs6 : ∀ x ∈ s6, isWs x = true) :
    dateTail1 (y ++ (s2 ++ '年' ::
        (s3 ++ (m ++ (s4 ++ '月' :: (s5 ++ (d ++ (s6 ++ ['日'])))))))) =
      some (String.mk y, String.mk m, String.mk d) := by
  have hmne : m ≠ [] := by
    intro he; rw [he] at hm12; simp at hm12
  have hdne : d ≠ [] := by
    intro he; rw [he] at hd12; simp at hd12
  have h1 : numRun (· == 4) (y ++ (s2 ++ '年' ::
      (s3 ++ (m ++ (s4 ++ '月' :: (s5 ++ (d ++ (s6 ++ ['日'])))))))) =
      some (y, s2 ++ '年' :: (s3 ++ (m ++ (s4 ++ '月' :: (s5 ++ (d ++ (s6 ++ ['日']))))))) :=
    numRun_split hy hs2 (by decide) (by rw [hy4]; rfl)
  have hw1 : dropWs (s2 ++ '年' ::
      (s3 ++ (m ++ (s4 ++ '月' :: (s5 ++ (d ++ (s6 ++ ['日']))))))) =
      '年' :: (s3 ++ (m ++ (s4 ++ '月' :: (s5 ++ (d ++ (s6 ++ ['日'])))))) :=
    (dropWs_append_ws hs2).trans (dropWs_cons_of (by decide))
  have hw2 : dropWs (s3 ++ (m ++ (s4 ++ '月' :: (s5 ++ (d ++ (s6 ++ ['日'])))))) =
      m ++ (s4 ++ '月' :: (s5 ++ (d ++ (s6 ++ ['日'])))) :=
    (dropWs_append_ws hs3).trans (dropWs_digits_append hm hmne)
  have h2 : numRun (fun n => n == 1 || n == 2)
      (m ++ (s4 ++ '月' :: (s5 ++ (d ++ (s6 ++ ['日']))))) =
      some (m, s4 ++ '月' :: (s5 ++ (d ++ (s6 ++ ['日'])))) :=
    numRun_split hm hs4 (by decide)
      (by rcases hm12 with h | h <;> rw [h] <;> rfl)
  have hw3 : dropWs (s4 ++ '月' :: (s5 ++ (d ++ (s6 ++ ['日'])))) =
      '月' :: (s5 ++ (d ++ (s6 ++ ['日']))) :=
    (dropWs_append_ws hs4).trans (dropWs_cons_of (by decide))
  have hw4 : dropWs (s5 ++ (d ++ (s6 ++ ['日']))) = d ++ (s6 ++ ['日']) :=
    (dropWs_append_ws hs5).trans (dropWs_digits_append hd hdne)
  have h3 : numRun (fun n => n == 1 || n == 2) (d ++ (s6 ++ ['日'])) =
      some (d, s6 ++ ['日']) :=
    numRun_split hd hs6 (by decide)
      (by rcases hd12 with h | h <;> rw [h] <;> rfl)
  have hw5 : dropWs (s6 ++ ['日']) = ['日'] :=
    (dropWs_append_ws hs6).trans (dropWs_cons_of (by decide))
  unfold dateTail1
  simp only [h1, hw1, litChar_self, hw2, h2, hw3, hw4, h3, hw5]

/-- Symbolic run of `date1MatchAt` at position 0 on a full date text. -/
theorem date1MatchAt_generic {y m d s2 s3 s4 s5 s6 : List Char}
    (hy : ∀ x ∈ y, x.isDigit = true) (hy4 : y.length = 4)
    (hm : ∀ x ∈ m, x.isDigit = true) (hm12 : m.length = 1 ∨ m.length = 2)
    (hd : ∀ x ∈ d, x.isDigit = true) (hd12 : d.length = 1 ∨ d.length = 2)
    (hs2 : ∀ x ∈ s2, isWs x = true) (hs3 : ∀ x ∈ s3, isWs x = true)
    (hs4 : ∀ x ∈ s4, isWs x = true) (hs5 : ∀ x ∈ s5, isWs x = true)
    (hs6 : ∀ x ∈ s6, isWs x = true) :
    date1MatchAt ('开' :: '票' :: '日' :: '期' :: '：' :: (y ++ (s2 ++ '年' ::
        (s3 ++ (m ++ (s4 ++ '月' :: (s5 ++ (d ++ (s6 ++ ['日']))))))))) =
      some (String.mk y, String.mk m, String.mk d) := by
  have hyne : y ≠ [] := by
    intro he; rw [he] at hy4; simp at hy4
  have hlit : dropLit (String.data "开票日期") ('开' :: '票' :: '日' :: '期' :: '：' ::
      (y ++ (s2 ++ '年' :: (s3 ++ (m ++ (s4 ++ '月' :: (s5 ++ (d ++ (s6 ++ ['日']))))))))) =
      some ('：' :: (y ++ (s2 ++ '年' ::
        (s3 ++ (m ++ (s4 ++ '月' :: (s5 ++ (d ++ (s6 ++ ['日'])))))))))  := by
    simp [dropLit, String.data]
  have hhead : dateHead ('开' :: '票' :: '日' :: '期' :: '：' :: (y ++ (s2 ++ '年' ::
      (s3 ++ (m ++ (s4 ++ '月' :: (s5 ++ (d ++ (s6 ++ ['日']))))))))) =
      some (y ++ (s2 ++ '年' :: (s3 ++ (m ++ (s4 ++ '月' ::
        (s5 ++ (d ++ (s6 ++ ['日'])))))))) := by
    unfold dateHead
    simp only [hlit]
    rw [dropWs_cons_of (by decide)]
    simp [dropWs_digits_append hy hyne]
  unfold date1MatchAt
  rw [hhead]
  exact dateTail1_full hy hy4 hm hm12 hd hd12 hs2 hs3 hs4 hs5 hs6

theorem searchWith_cons_some {f : List Char → Option α} {c : Char} {cs : List Char}
    {v : α} (h : f (c :: cs) = some v) : searchWith f (c :: cs) = some v := by
  unfold searchWith
  rw [h]

/-- A text that is exactly the spaced date-label variant, with single spaces
around the unit characters. -/
def spacedDateText (y m d : List Char) : String :=
  String.mk ('开' :: '票' :: '日' :: '期' :: '：' :: (y ++ ([' '] ++ '年' ::
    ([' '] ++ (m ++ ([' '] ++ '月' :: ([' '] ++ (d ++ ([' '] ++ ['日'])))))))))

/-- A text that is exactly the compact date-label variant (no whitespace). -/
def compactDateText (y m d : List Char) : String :=
  String.mk ('开' :: '票' :: '日' :: '期' :: '：' :: (y ++ ([] ++ '年' ::
    ([] ++ (m ++ ([] ++ '月' :: ([] ++ (d ++ ([] ++ ['日'])))))))))

/-- **C9.** For every `(year, month, day)` with a 4-digit year and 1–2 digit
month and day, a text with the spaced date-label variant and a text with the
compact variant yield the identical canonical date string, month and day
zero-padded to width 2 and joined by `/`; and for any text matched by
neither date pattern the date field is the empty string while the record
still has success status. -/
theorem c9_date_invariance :
    (∀ (y m d : List Char) (path now : String),
      (∀ x ∈ y, x.isDigit = true) → y.length = 4 →
      (∀ x ∈ m, x.isDigit = true) → (m.length = 1 ∨ m.length = 2) →
      (∀ x ∈ d, x.isDigit = true) → (d.length = 1 ∨ d.length = 2) →
      (extract_invoice_info path (Except.ok (spacedDateText y m d)) now).lookup "开票日期"
        = (extract_invoice_info path (Except.ok (compactDateText y m d)) now).lookup "开票日期"
      ∧ (extract_invoice_info path (Except.ok (spacedDateText y m d)) now).lookup "开票日期"
        = some (Val.str (String.mk y ++ "/" ++ zfill2 (String.mk m) ++ "/"
            ++ zfill2 (String.mk d))))
    ∧ (∀ (path text now : String),
      searchWith date1MatchAt text.data = none →
      searchWith date2MatchAt text.data = none →
      (extract_invoice_info path (Except.ok text) now).lookup "开票日期"
        = some (Val.str "")
      ∧ (extract_invoice_info path (Except.ok text) now).lookup "状态"
        = some (Val.str "成功")) := by
  constructor
  · intro y m d path now hy hy4 hm hm12 hd hd12
    have hsp : date1MatchAt (spacedDateText y m d).data
        = some (String.mk y, String.mk m, String.mk d) :=
      date1MatchAt_generic hy hy4 hm hm12 hd hd12
        (by decide) (by decide) (by decide) (by decide) (by decide)
    have hcp : date1MatchAt (compactDateText y m d).data
        = some (String.mk y, String.mk m, String.mk d) :=
      date1MatchAt_generic hy hy4 hm hm12 hd hd12
        (by simp) (by simp) (by simp) (by simp) (by simp)
    have hswsp : searchWith date1MatchAt (spacedDateText y m d).data
        = some (String.mk y, String.mk m, String.mk d) := searchWith_cons_some hsp
    have hswcp : searchWith date1MatchAt (compactDateText y m d).data
        = some (String.mk y, String.mk m, String.mk d) := searchWith_cons_some hcp
    have hssp : searchFirst date_patterns (spacedDateText y m d).data
        = some (String.mk y, String.mk m, String.mk d) := by
      simp [searchFirst, date_patterns, hswsp]
    have hscp : searchFirst date_patterns (compactDateText y m d).data
        = some (String.mk y, String.mk m, String.mk d) := by
      simp [searchFirst, date_patterns, hswcp]
    have hfsp : dateFieldOf (spacedDateText y m d).data
        = String.mk y ++ "/" ++ zfill2 (String.mk m) ++ "/" ++ zfill2 (String.mk d) := by
      unfold dateFieldOf
      rw [hssp]
    have hfcp : dateFieldOf (compactDateText y m d).data
        = String.mk y ++ "/" ++ zfill2 (String.mk m) ++ "/" ++ zfill2 (String.mk d) := by
      unfold dateFieldOf
      rw [hscp]
    have l1 : (extract_invoice_info path (Except.ok (spacedDateText y m d)) now).lookup
        "开票日期" = some (Val.str (dateFieldOf (spacedDateText y m d).data)) := rfl
    have l2 : (extract_invoice_info path (Except.ok (compactDateText y m d)) now).lookup
        "开票日期" = some (Val.str (dateFieldOf (compactDateText y m d).data)) := rfl
    rw [l1, l2, hfsp, hfcp]
    exact ⟨rfl, rfl⟩
  · intro path text now h1 h2
    have hsf : searchFirst date_patterns text.data = none := by
      simp [searchFirst, date_patterns, h1, h2]
    have hf : dateFieldOf text.data = "" := by
      unfold dateFieldOf
      rw [hsf]
    have l1 : (extract_invoice_info path (Except.ok text) now).lookup "开票日期"
        = some (Val.str (dateFieldOf text.data)) := rfl
    rw [l1, hf]
    exact ⟨rfl, rfl⟩

/-- Witness for `c9_date_invariance` at `(2024, 3, 17)` and at a dateless
text. -/
theorem c9_date_invariance_witness :
    (extract_invoice_info "p"
        (Except.ok (spacedDateText ['2', '0', '2', '4'] ['3'] ['1', '7'])) "t").lookup
        "开票日期"
      = (extract_invoice_info "p"
        (Except.ok (compactDateText ['2', '0', '2', '4'] ['3'] ['1', '7'])) "t").lookup
        "开票日期"
    ∧ (extract_invoice_info "p"
        (Except.ok (spacedDateText ['2', '0', '2', '4'] ['3'] ['1', '7'])) "t").lookup
        "开票日期" = some (Val.str "2024/03/17")
    ∧ (extract_invoice_info "p" (Except.ok "hello") "t").lookup "开票日期"
        = some (Val.str "")
    ∧ (extract_invoice_info "p" (Except.ok "hello") "t").lookup "状态"
        = some (Val.str "成功") := by
  have h := c9_date_invariance.1 ['2', '0', '2', '4'] ['3'] ['1', '7'] "p" "t"
    (by decide) (by decide) (by decide) (by decide) (by decide) (by decide)
  have h2 := c9_date_invariance.2 "p" "hello" "t" (by decide) (by decide)
  exact ⟨h.1, h.2.trans (by decide), h2.1, h2.2⟩
